import Mathlib

/-!
Shallow embedding of `check_placement.py`, a script that audits an OpenStack
placement service for instances holding resource allocations on more than one
resource provider, and (with `--repair`) rewrites each such instance's
allocation record to the single provider the compute service reports as the
instance's current host.

Python dicts are modelled as insertion-ordered association lists
(`List (String × β)`): assignment updates an existing binding in place and
otherwise appends, matching CPython's ordered-dict semantics. The HTTP layer
is modelled with `Except UpstreamError`.
-/

namespace CheckPlacement

/-- A resource provider as returned by `GET /resource_providers`; the script
uses only its `uuid` and `name` fields (the name is the hypervisor hostname). -/
structure ResourceProvider where
  uuid : String
  name : String
deriving DecidableEq

/-- An allocation record for one (instance, provider) pair; the script uses
only its `resources` mapping (resource-class name to consumed amount). -/
structure Allocation where
  resources : List (String × Nat)
deriving DecidableEq

/-- The error raised by the HTTP layer (keystoneauth session errors and
`raise_for_status`). -/
structure UpstreamError where
  msg : String
deriving DecidableEq

/-- Python dict assignment `d[k] = v`: update the existing binding in place,
keeping its position, otherwise append a new binding at the end. -/
def dictInsert {β : Type} : List (String × β) → String → β → List (String × β)
  | [], k, v => [(k, v)]
  | (k', v') :: d, k, v =>
      if k' = k then (k, v) :: d else (k', v') :: dictInsert d k v

/-- Python dict lookup: the value bound to `k`, if any. -/
def dictLookup {β : Type} : List (String × β) → String → Option β
  | [], _ => none
  | (k', v') :: d, k => if k' = k then some v' else dictLookup d k

/-- The key list of a modelled dict, in insertion order. -/
def keys {β : Type} (d : List (String × β)) : List String := d.map Prod.fst

/-- `Except` result that is an error. -/
def isError {ε α : Type} : Except ε α → Bool
  | Except.error _ => true
  | Except.ok _ => false

/-! ### Placement gateway (`Placement` class) -/

/-- An HTTP response: a status code and a decoded JSON body. -/
structure HttpResp (α : Type) where
  status : Nat
  body : α

/-- A keystoneauth session `get`: the session raises (here: returns
`Except.error`) on any non-2xx/transport failure before the caller can read
the body, per the gateway interface contract. -/
def sessionGet {α : Type} (r : HttpResp α) : Except UpstreamError α :=
  if 200 ≤ r.status ∧ r.status ≤ 299 then Except.ok r.body
  else Except.error ⟨"HTTP " ++ toString r.status⟩

/-- `Placement.list_resource_providers`: GET `/resource_providers`, then
`res.json().get('resource_providers', [])`. -/
def list_resource_providers (r : HttpResp (Option (List ResourceProvider))) :
    Except UpstreamError (List ResourceProvider) :=
  (sessionGet r).map (fun b => b.getD [])

/-- The JSON document of `GET /resource_providers/{uuid}/allocations`: a
mapping from instance uuid to that instance's allocation on the provider. -/
structure AllocationsDoc where
  allocations : List (String × Allocation)
deriving DecidableEq

/-- `Placement.get_resource_provider_allocations`: GET the provider's
allocations document and return `res.json()`. -/
def get_resource_provider_allocations (r : HttpResp AllocationsDoc) :
    Except UpstreamError AllocationsDoc :=
  sessionGet r

/-- One element of the `allocations` array in the PUT body built by
`Placement.set_allocation`: `{'resource_provider': {'uuid': ...},
'resources': ...}`. -/
structure AllocationEntryBody where
  resource_provider_uuid : String
  resources : List (String × Nat)
deriving DecidableEq

/-- The body of `PUT /allocations/{instance_uuid}` built by
`Placement.set_allocation`: `{'allocations': [ ... ]}`. -/
structure PutBody where
  allocations : List AllocationEntryBody
deriving DecidableEq

/-- One entry appended to `multiple[instance_uuid]['allocations']`:
`{'provider': provider, 'active': active, 'allocation': allocation}`. -/
structure ConflictEntry where
  provider : ResourceProvider
  active : Bool
  allocation : Allocation
deriving DecidableEq

/-- `multiple[instance_uuid]`: `{'uuid': ..., 'active': current_hypervisor,
'allocations': [...]}`. -/
structure ConflictRecord where
  uuid : String
  active : Option String
  allocations : List ConflictEntry
deriving DecidableEq

/-- The PUT body `Placement.set_allocation` builds from one conflict entry:
a single-element `allocations` array naming that entry's provider uuid and
carrying that entry's allocation resources. -/
def set_allocation_body (e : ConflictEntry) : PutBody :=
  ⟨[⟨e.provider.uuid, e.allocation.resources⟩]⟩

/-- `Placement.set_allocation`: issue the PUT (modelled by `put`) and
propagate its failure (`raise_for_status`). -/
def set_allocation (put : String → PutBody → Except UpstreamError Unit)
    (instance_uuid : String) (e : ConflictEntry) : Except UpstreamError Unit :=
  put instance_uuid (set_allocation_body e)

/-! ### Tally builder (`main`, provider scan loop) -/

/-- `tally`: instance uuid → (provider uuid → allocation). -/
abbrev Tally := List (String × List (String × Allocation))

/-- One inner-loop step of the provider scan:
`if instance_uuid not in tally: tally[instance_uuid] = {}` followed by
`tally[instance_uuid][provider_uuid] = allocation`. -/
def tallyAdd (t : Tally) (instance_uuid provider_uuid : String)
    (a : Allocation) : Tally :=
  dictInsert t instance_uuid
    (dictInsert ((dictLookup t instance_uuid).getD []) provider_uuid a)

/-- The mutable state of the provider scan loop: the `providers` dict and the
`tally` dict. -/
structure ScanState where
  providers : List (String × ResourceProvider)
  tally : Tally

/-- One iteration of the provider scan loop of `main`:
`providers[provider['uuid']] = provider`, then fold the provider's
allocations document into the tally. `F` models
`get_resource_provider_allocations(uuid)['allocations']`. -/
def scanProvider (F : String → List (String × Allocation))
    (st : ScanState) (pr : ResourceProvider) : ScanState :=
  { providers := dictInsert st.providers pr.uuid pr,
    tally := (F pr.uuid).foldl (fun t ia => tallyAdd t ia.1 pr.uuid ia.2) st.tally }

/-- The whole provider scan loop of `main`, starting from empty dicts. -/
def buildTally (provs : List ResourceProvider)
    (F : String → List (String × Allocation)) : ScanState :=
  provs.foldl (scanProvider F) ⟨[], []⟩

/-! ### Conflict classifier (`main`, audit loop) -/

/-- The inner entry loop of the audit: for each `(provider_uuid, allocation)`
pair of the instance's tally entry look the provider up in `providers`
(`providers[provider_uuid]`, `none` models a `KeyError`) and flag it active
exactly when `provider['name'] == current_hypervisor`. -/
def classifyAllocs (providers : List (String × ResourceProvider))
    (host : Option String) :
    List (String × Allocation) → Option (List ConflictEntry)
  | [] => some []
  | (pu, a) :: rest =>
      match dictLookup providers pu with
      | none => none
      | some pr =>
          match classifyAllocs providers host rest with
          | none => none
          | some es => some (⟨pr, decide (host = some pr.name), a⟩ :: es)

/-- The audit loop of `main` over `tally.items()` with accumulator `multiple`:
skip instances excluded by `--limit`, keep only instances with more than one
allocation, resolve the active host with `look` (the compute `get_server`
hypervisor-hostname lookup) and record the flagged entries. -/
def classify (providers : List (String × ResourceProvider))
    (limit : List String) (look : String → Option String) :
    Tally → List (String × ConflictRecord) → Option (List (String × ConflictRecord))
  | [], m => some m
  | (iu, allocs) :: rest, m =>
      if limit ≠ [] ∧ iu ∉ limit then classify providers limit look rest m
      else if allocs.length > 1 then
        match classifyAllocs providers (look iu) allocs with
        | none => none
        | some es =>
            classify providers limit look rest
              (dictInsert m iu ⟨iu, look iu, es⟩)
      else classify providers limit look rest m

/-- The read-and-audit part of `main`: build the tally from the provider
listing, then classify. -/
def auditRun (provs : List ResourceProvider)
    (F : String → List (String × Allocation))
    (limit : List String) (look : String → Option String) :
    Option (List (String × ConflictRecord)) :=
  let st := buildTally provs F
  classify st.providers limit look st.tally []

/-! ### Report and repair (`main`, final loops) -/

/-- One printed allocation line: `'{} {}'.format(mark, provider['name'])`. -/
def entryLine (e : ConflictEntry) : String :=
  (if e.active then "*" else "-") ++ " " ++ e.provider.name

/-- The console report: for each conflicting instance its uuid, then one
marked line per allocation entry. -/
def reportLines (m : List (String × ConflictRecord)) : List String :=
  m.flatMap (fun p => p.1 :: p.2.allocations.map entryLine)

/-- The repair loop of `main` (under `--repair`): for each conflict record in
order, call `set_allocation` on the first entry flagged active and `break`;
an uncaught `UpstreamError` from `set_allocation` aborts the whole loop.
Returns the PUT calls issued (instance uuid and body, in order) and the
uncaught error, if any. -/
def runRepair (put : String → PutBody → Except UpstreamError Unit) :
    List (String × ConflictRecord) → List (String × PutBody) × Option UpstreamError
  | [] => ([], none)
  | (u, cr) :: rest =>
      match cr.allocations.find? (fun e => e.active) with
      | none => runRepair put rest
      | some e =>
          match set_allocation put u e with
          | Except.ok _ =>
              let r := runRepair put rest
              ((u, set_allocation_body e) :: r.1, r.2)
          | Except.error er => ([(u, set_allocation_body e)], some er)

/-! ### Derived views used to state properties -/

/-- Left-biased choice on options (used to describe overwriting updates). -/
def oor {α : Type} : Option α → Option α → Option α
  | some a, _ => some a
  | none, b => b

/-- The value the last binding of `i` in an allocations document carries
(later bindings overwrite earlier ones when folded into a dict). -/
def lastLook : List (String × Allocation) → String → Option Allocation
  | [], _ => none
  | x :: l, i => oor (lastLook l i) (if x.1 = i then some x.2 else none)

/-- Two-level lookup in the tally: instance `i`'s allocation on provider
`p`, if recorded. -/
def lookup2 (t : Tally) (i p : String) : Option Allocation :=
  match dictLookup t i with
  | none => none
  | some l => dictLookup l p

/-! ### Concrete scenario data -/

/-- Provider A of the spec's scenario. -/
def provA : ResourceProvider := ⟨"p1", "hostA"⟩

/-- Provider B of the spec's scenario. -/
def provB : ResourceProvider := ⟨"p2", "hostB"⟩

def alloc1 : Allocation := ⟨[("VCPU", 2), ("MEMORY_MB", 2048)]⟩

def alloc2 : Allocation := ⟨[("VCPU", 2), ("MEMORY_MB", 2048), ("DISK_GB", 20)]⟩

/-- Scenario allocations: instance `i1` is recorded on both providers. -/
def scenarioF : String → List (String × Allocation) := fun u =>
  if u = "p1" then [("i1", alloc1)]
  else if u = "p2" then [("i1", alloc2)]
  else []

/-- Scenario compute lookup: `i1` currently runs on `hostA`. -/
def scenarioLook : String → Option String := fun u =>
  if u = "i1" then some "hostA" else none

/-- The conflict record the scenario produces for `i1`. -/
def scenarioRecord : ConflictRecord :=
  ⟨"i1", some "hostA", [⟨provA, true, alloc1⟩, ⟨provB, false, alloc2⟩]⟩

def alloc3 : Allocation := ⟨[("VCPU", 4)]⟩

def alloc4 : Allocation := ⟨[("VCPU", 4), ("DISK_GB", 40)]⟩

/-- Two-instance scenario: both `i1` and `i2` are recorded on both
providers. -/
def scenario2F : String → List (String × Allocation) := fun u =>
  if u = "p1" then [("i1", alloc1), ("i2", alloc3)]
  else if u = "p2" then [("i1", alloc2), ("i2", alloc4)]
  else []

/-- Compute lookup for the two-instance scenario: both instances run on
`hostA`. -/
def scenario2Look : String → Option String := fun _ => some "hostA"

/-- A placement PUT endpoint that rejects the write for `i1` with a server
error and accepts every other write. -/
def failPut : String → PutBody → Except UpstreamError Unit := fun u _ =>
  if u = "i1" then Except.error ⟨"HTTP 500"⟩ else Except.ok ()

/-- The conflict record of `i2` in the two-instance scenario. -/
def scenario2RecI2 : ConflictRecord :=
  ⟨"i2", some "hostA", [⟨provA, true, alloc3⟩, ⟨provB, false, alloc4⟩]⟩

/-- The conflict records of the two-instance scenario, in scan order. -/
def scenario2M : List (String × ConflictRecord) :=
  [("i1", ⟨"i1", some "hostA", [⟨provA, true, alloc1⟩, ⟨provB, false, alloc2⟩]⟩),
   ("i2", scenario2RecI2)]

/-- A conflict record for an instance whose compute lookup came back absent:
no entry is active. -/
def unresolvedRecord : ConflictRecord :=
  ⟨"i1", none, [⟨provA, false, alloc1⟩, ⟨provB, false, alloc2⟩]⟩

/-- Compute lookup returning absent for every instance. -/
def lookAbsent : String → Option String := fun _ => none

/-- Allocations where instance `i2` sits on a single provider only. -/
def singleF : String → List (String × Allocation) := fun u =>
  if u = "p1" then [("i2", alloc1)] else []

/-- A conflict record with no active entry, used as an already-handled
prefix of a repair pass. -/
def preRecord : ConflictRecord := ⟨"i0", none, [⟨provA, false, alloc1⟩]⟩

/-- C1: with providers `p1`/`hostA` and `p2`/`hostB`, instance `i1` allocated
on both, and the compute lookup reporting `hostA`, the classifier marks the
`p1` entry active and the `p2` entry inactive, and the repair pass issues
exactly one `replaceAllocation` PUT for `i1` whose body names `p1` as the
sole resource provider and carries exactly `p1`'s allocation resources. -/
theorem c1_scenario_classify_and_repair :
    auditRun [provA, provB] scenarioF [] scenarioLook =
      some [("i1", scenarioRecord)] ∧
    runRepair (fun _ _ => Except.ok ()) [("i1", scenarioRecord)] =
      ([("i1", ⟨[⟨"p1", alloc1.resources⟩]⟩)], none) := by
  exact ⟨rfl, rfl⟩

/-! ### Dictionary lemmas -/

theorem keys_cons {β : Type} (x : String × β) (d : List (String × β)) :
    keys (x :: d) = x.1 :: keys d := rfl

theorem dictLookup_dictInsert {β : Type} (d : List (String × β)) (k k' : String)
    (v : β) :
    dictLookup (dictInsert d k v) k' = if k' = k then some v else dictLookup d k' := by
  induction d with
  | nil =>
      simp only [dictInsert, dictLookup]
      by_cases h : k = k'
      · simp [h]
      · simp [h, Ne.symm h]
  | cons x d ih =>
      obtain ⟨a, b⟩ := x
      by_cases hak : a = k
      · subst hak
        simp only [dictInsert, if_pos rfl, dictLookup]
        by_cases h : a = k'
        · simp [h]
        · simp [h, Ne.symm h]
      · simp only [dictInsert, if_neg hak, dictLookup, ih]
        by_cases h : a = k'
        · rw [← h]
          simp [hak]
        · simp [h]

theorem mem_dictInsert {β : Type} {d : List (String × β)} {k : String} {v : β}
    {x : String × β} (hx : x ∈ dictInsert d k v) : x ∈ d ∨ x = (k, v) := by
  induction d with
  | nil =>
      simp [dictInsert] at hx
      exact Or.inr hx
  | cons y d ih =>
      obtain ⟨a, b⟩ := y
      by_cases hak : a = k
      · simp [dictInsert, hak] at hx
        rcases hx with h | h
        · exact Or.inr h
        · exact Or.inl (List.mem_cons_of_mem _ h)
      · simp [dictInsert, hak] at hx
        rcases hx with h | h
        · exact Or.inl (by simp [h])
        · rcases ih h with h' | h'
          · exact Or.inl (List.mem_cons_of_mem _ h')
          · exact Or.inr h'

theorem keys_dictInsert {β : Type} (d : List (String × β)) (k : String) (v : β) :
    keys (dictInsert d k v) = if k ∈ keys d then keys d else keys d ++ [k] := by
  induction d with
  | nil => simp [dictInsert, keys]
  | cons x d ih =>
      obtain ⟨a, b⟩ := x
      by_cases hak : a = k
      · subst hak
        simp [dictInsert, keys]
      · have hcond : (k ∈ a :: keys d) ↔ k ∈ keys d := by
          simp [Ne.symm hak]
        simp only [dictInsert, if_neg hak, keys_cons, ih]
        by_cases hk : k ∈ keys d
        · rw [if_pos hk, if_pos (hcond.mpr hk)]
        · rw [if_neg hk, if_neg (fun h => hk (hcond.mp h))]
          simp

theorem mem_keys_dictInsert {β : Type} {d : List (String × β)} {k k' : String}
    {v : β} : k' ∈ keys (dictInsert d k v) ↔ k' ∈ keys d ∨ k' = k := by
  rw [keys_dictInsert]
  by_cases hk : k ∈ keys d
  · simp only [hk, if_true]
    constructor
    · exact fun h => Or.inl h
    · rintro (h | h)
      · exact h
      · exact h ▸ hk
  · simp [hk]

theorem keys_nodup_dictInsert {β : Type} {d : List (String × β)} {k : String}
    {v : β} (h : (keys d).Nodup) : (keys (dictInsert d k v)).Nodup := by
  rw [keys_dictInsert]
  by_cases hk : k ∈ keys d
  · simpa [hk] using h
  · simp only [hk, if_false]
    simpa [List.nodup_append] using ⟨h, hk⟩

theorem dictLookup_mem {β : Type} {d : List (String × β)} {k : String} {v : β}
    (h : dictLookup d k = some v) : (k, v) ∈ d := by
  induction d with
  | nil => simp [dictLookup] at h
  | cons x d ih =>
      obtain ⟨a, b⟩ := x
      by_cases hak : a = k
      · subst hak
        simp [dictLookup] at h
        simp [h]
      · simp [dictLookup, hak] at h
        exact List.mem_cons_of_mem _ (ih h)

theorem mem_dictLookup {β : Type} {d : List (String × β)} {k : String} {v : β}
    (hnd : (keys d).Nodup) (h : (k, v) ∈ d) : dictLookup d k = some v := by
  induction d with
  | nil => simp at h
  | cons x d ih =>
      obtain ⟨a, b⟩ := x
      rw [keys_cons] at hnd
      have hna : a ∉ keys d := (List.nodup_cons.mp hnd).1
      have hnd' : (keys d).Nodup := (List.nodup_cons.mp hnd).2
      rcases List.mem_cons.mp h with h' | h'
      · cases h'
        simp [dictLookup]
      · have hk : k ∈ keys d := List.mem_map_of_mem Prod.fst h'
        have hak : ¬ a = k := fun he => hna (he ▸ hk)
        simp [dictLookup, hak, ih hnd' h']

theorem dictLookup_isSome_iff {β : Type} {d : List (String × β)} {k : String} :
    (dictLookup d k).isSome = true ↔ k ∈ keys d := by
  induction d with
  | nil => simp [dictLookup, keys]
  | cons x d ih =>
      obtain ⟨a, b⟩ := x
      rw [keys_cons]
      by_cases hak : a = k
      · subst hak
        simp [dictLookup]
      · simp [dictLookup, hak, ih, Ne.symm hak]

theorem keys_nodup_unique {β : Type} {d : List (String × β)} {k : String}
    {a b : β} (hnd : (keys d).Nodup) (ha : (k, a) ∈ d) (hb : (k, b) ∈ d) :
    a = b := by
  have h1 := mem_dictLookup hnd ha
  have h2 := mem_dictLookup hnd hb
  rw [h1] at h2
  exact Option.some.inj h2

/-! ### Tally characterisation -/

theorem oor_absorb {α : Type} (a b : Option α) : oor a (oor a b) = oor a b := by
  cases a <;> rfl

theorem oor_assoc {α : Type} (a b c : Option α) :
    oor (oor a b) c = oor a (oor b c) := by
  cases a <;> rfl

theorem oor_none_right {α : Type} (a : Option α) : oor a none = a := by
  cases a <;> rfl

theorem lookup2_nil (i p : String) : lookup2 [] i p = none := rfl

theorem lookup2_eq_bind (t : Tally) (i p : String) :
    lookup2 t i p = (dictLookup t i).bind (fun l => dictLookup l p) := by
  cases h : dictLookup t i <;> simp [lookup2, h]

theorem lookup2_tallyAdd (t : Tally) (j q i p : String) (a : Allocation) :
    lookup2 (tallyAdd t j q a) i p =
      if i = j ∧ p = q then some a else lookup2 t i p := by
  rw [lookup2_eq_bind]
  unfold tallyAdd
  rw [dictLookup_dictInsert]
  by_cases hij : i = j
  · subst hij
    rw [if_pos rfl, Option.some_bind, dictLookup_dictInsert]
    by_cases hpq : p = q
    · simp [hpq]
    · rw [if_neg hpq, if_neg (fun hh : i = i ∧ p = q => hpq hh.2)]
      rw [lookup2_eq_bind]
      cases hdl : dictLookup t i <;> simp [hdl, dictLookup]
  · rw [if_neg hij, if_neg (fun hh : i = j ∧ p = q => hij hh.1), lookup2_eq_bind]

theorem lookup2_foldl_alloc (pu : String) (l : List (String × Allocation))
    (t : Tally) (i p : String) :
    lookup2 (l.foldl (fun t ia => tallyAdd t ia.1 pu ia.2) t) i p =
      if p = pu then oor (lastLook l i) (lookup2 t i p) else lookup2 t i p := by
  induction l generalizing t with
  | nil => by_cases h : p = pu <;> simp [lastLook, oor, h]
  | cons x l ih =>
      rw [List.foldl_cons, ih]
      by_cases h : p = pu
      · subst h
        rw [if_pos rfl, if_pos rfl, lookup2_tallyAdd]
        rw [show lastLook (x :: l) i =
              oor (lastLook l i) (if x.1 = i then some x.2 else none) from rfl]
        rw [oor_assoc]
        congr 1
        by_cases hxi : x.1 = i
        · rw [if_pos ⟨hxi.symm, rfl⟩, if_pos hxi]
          rfl
        · rw [if_neg (fun hh => hxi hh.1.symm), if_neg hxi]
          rfl
      · rw [if_neg h, if_neg h, lookup2_tallyAdd]
        simp [h]

theorem lookup2_scan_foldl (F : String → List (String × Allocation))
    (provs : List ResourceProvider) (st : ScanState) (i p : String) :
    lookup2 ((provs.foldl (scanProvider F) st).tally) i p =
      if provs.any (fun q => q.uuid == p) = true then
        oor (lastLook (F p) i) (lookup2 st.tally i p)
      else lookup2 st.tally i p := by
  induction provs generalizing st with
  | nil => simp
  | cons q provs ih =>
      rw [List.foldl_cons, ih]
      have hscan : lookup2 (scanProvider F st q).tally i p =
          if p = q.uuid then oor (lastLook (F q.uuid) i) (lookup2 st.tally i p)
          else lookup2 st.tally i p := lookup2_foldl_alloc q.uuid (F q.uuid) st.tally i p
      by_cases hqp : q.uuid = p
      · have hany : ((q :: provs).any (fun r => r.uuid == p)) = true := by
          simp [List.any_cons, hqp]
        rw [if_pos hany, hscan, if_pos hqp.symm, hqp]
        by_cases hrest : provs.any (fun r => r.uuid == p) = true
        · rw [if_pos hrest, oor_absorb]
        · rw [if_neg hrest]
      · have hne : ¬ p = q.uuid := fun hh => hqp hh.symm
        rw [hscan, if_neg hne]
        have hany : ((q :: provs).any (fun r => r.uuid == p)) =
            provs.any (fun r => r.uuid == p) := by
          simp [List.any_cons, hqp]
        rw [hany]

theorem lookup2_buildTally (provs : List ResourceProvider)
    (F : String → List (String × Allocation)) (i p : String) :
    lookup2 (buildTally provs F).tally i p =
      if provs.any (fun q => q.uuid == p) = true then lastLook (F p) i
      else none := by
  unfold buildTally
  rw [lookup2_scan_foldl]
  by_cases h : provs.any (fun q => q.uuid == p) = true <;>
    simp [h, lookup2_nil, oor_none_right]

theorem isSome_tallyAdd (t : Tally) (j q i : String) (a : Allocation) :
    (dictLookup (tallyAdd t j q a) i).isSome = true ↔
      i = j ∨ (dictLookup t i).isSome = true := by
  unfold tallyAdd
  rw [dictLookup_dictInsert]
  by_cases hij : i = j <;> simp [hij]

theorem isSome_foldl_alloc (pu : String) (l : List (String × Allocation))
    (t : Tally) (i : String) :
    (dictLookup (l.foldl (fun t ia => tallyAdd t ia.1 pu ia.2) t) i).isSome = true ↔
      l.any (fun x => x.1 == i) = true ∨ (dictLookup t i).isSome = true := by
  induction l generalizing t with
  | nil => simp
  | cons x l ih =>
      rw [List.foldl_cons, ih, isSome_tallyAdd, List.any_cons, Bool.or_eq_true,
        beq_iff_eq]
      constructor
      · rintro (h | h | h)
        · exact Or.inl (Or.inr h)
        · exact Or.inl (Or.inl h.symm)
        · exact Or.inr h
      · rintro ((h | h) | h)
        · exact Or.inr (Or.inl h.symm)
        · exact Or.inl h
        · exact Or.inr (Or.inr h)

theorem isSome_scan_foldl (F : String → List (String × Allocation))
    (provs : List ResourceProvider) (st : ScanState) (i : String) :
    (dictLookup ((provs.foldl (scanProvider F) st).tally) i).isSome = true ↔
      provs.any (fun q => (F q.uuid).any (fun x => x.1 == i)) = true ∨
        (dictLookup st.tally i).isSome = true := by
  induction provs generalizing st with
  | nil => simp
  | cons q provs ih =>
      rw [List.foldl_cons, ih,
        show (scanProvider F st q).tally =
          (F q.uuid).foldl (fun t ia => tallyAdd t ia.1 q.uuid ia.2) st.tally from rfl,
        isSome_foldl_alloc, List.any_cons, Bool.or_eq_true]
      tauto

theorem isSome_buildTally (provs : List ResourceProvider)
    (F : String → List (String × Allocation)) (i : String) :
    (dictLookup (buildTally provs F).tally i).isSome = true ↔
      provs.any (fun q => (F q.uuid).any (fun x => x.1 == i)) = true := by
  unfold buildTally
  rw [isSome_scan_foldl]
  simp [dictLookup]

theorem perm_any_eq {α : Type} {l₁ l₂ : List α} (h : l₁.Perm l₂) (f : α → Bool) :
    l₁.any f = l₂.any f := by
  rw [Bool.eq_iff_iff]
  simp only [List.any_eq_true]
  constructor
  · rintro ⟨x, hx, hfx⟩
    exact ⟨x, h.mem_iff.mp hx, hfx⟩
  · rintro ⟨x, hx, hfx⟩
    exact ⟨x, h.mem_iff.mpr hx, hfx⟩

/-- C8: the tally merge is order-independent: with the per-provider
allocation mappings fixed (a function of the provider uuid, as fetched by
`get_resource_provider_allocations`), processing the providers in any
permutation of their order yields an identical instance-uuid-to-
(provider-uuid-to-allocation) mapping: the same instance keys are present
and every two-level lookup agrees. -/
theorem c8_tally_merge_order_independent (F : String → List (String × Allocation))
    (provs₁ provs₂ : List ResourceProvider) (h : provs₁.Perm provs₂)
    (i p : String) :
    lookup2 (buildTally provs₁ F).tally i p =
        lookup2 (buildTally provs₂ F).tally i p ∧
    (dictLookup (buildTally provs₁ F).tally i).isSome =
        (dictLookup (buildTally provs₂ F).tally i).isSome := by
  constructor
  · rw [lookup2_buildTally, lookup2_buildTally,
      perm_any_eq h (fun q => q.uuid == p)]
  · rw [Bool.eq_iff_iff, isSome_buildTally, isSome_buildTally,
      perm_any_eq h (fun q => (F q.uuid).any (fun x => x.1 == i))]

/-- Witness for C8: the two scenario providers processed in either order
give the same tally mapping at instance `i1`, provider `p2`. -/
theorem c8_tally_merge_order_independent_witness :
    lookup2 (buildTally [provA, provB] scenarioF).tally "i1" "p2" =
      lookup2 (buildTally [provB, provA] scenarioF).tally "i1" "p2" :=
  (c8_tally_merge_order_independent scenarioF [provA, provB] [provB, provA]
    (List.Perm.swap provB provA []) "i1" "p2").1

/-! ### Provider coverage of the tally (classifier lookup safety) -/

/-- Every provider uuid recorded as an inner key of the tally is a key of the
`providers` dict. -/
def ProvidersCover (st : ScanState) : Prop :=
  ∀ u allocs pu, (u, allocs) ∈ st.tally → pu ∈ keys allocs →
    pu ∈ keys st.providers

theorem tallyAdd_inner_keys {t : Tally} {j q : String} {a : Allocation}
    {S : String → Prop}
    (hS : ∀ u allocs pu, (u, allocs) ∈ t → pu ∈ keys allocs → S pu)
    (hq : S q) :
    ∀ u allocs pu, (u, allocs) ∈ tallyAdd t j q a → pu ∈ keys allocs → S pu := by
  intro u allocs pu hmem hpu
  rcases mem_dictInsert hmem with h | h
  · exact hS u allocs pu h hpu
  · cases h
    rcases mem_keys_dictInsert.mp hpu with h' | h'
    · cases hdl : dictLookup t j with
      | none => rw [hdl] at h'; simp [keys] at h'
      | some l =>
          rw [hdl] at h'
          exact hS j l pu (dictLookup_mem hdl) (by simpa using h')
    · exact h' ▸ hq

theorem foldl_alloc_inner_keys {pu0 : String} {l : List (String × Allocation)}
    {t : Tally} {S : String → Prop}
    (hS : ∀ u allocs pu, (u, allocs) ∈ t → pu ∈ keys allocs → S pu)
    (hq : S pu0) :
    ∀ u allocs pu,
      (u, allocs) ∈ l.foldl (fun t ia => tallyAdd t ia.1 pu0 ia.2) t →
      pu ∈ keys allocs → S pu := by
  induction l generalizing t with
  | nil => exact hS
  | cons x l ih => exact ih (tallyAdd_inner_keys hS hq)

theorem providersCover_scanProvider {F : String → List (String × Allocation)}
    {st : ScanState} {q : ResourceProvider} (h : ProvidersCover st) :
    ProvidersCover (scanProvider F st q) := by
  intro u allocs pu hmem hpu
  have hcover : pu ∈ keys st.providers ∨ pu = q.uuid :=
    @foldl_alloc_inner_keys q.uuid (F q.uuid) st.tally
      (fun r => r ∈ keys st.providers ∨ r = q.uuid)
      (fun u allocs pu hm hp => Or.inl (h u allocs pu hm hp))
      (Or.inr rfl) u allocs pu hmem hpu
  exact mem_keys_dictInsert.mpr hcover

theorem providersCover_buildTally (provs : List ResourceProvider)
    (F : String → List (String × Allocation)) :
    ProvidersCover (buildTally provs F) := by
  unfold buildTally
  suffices h : ∀ st, ProvidersCover st →
      ProvidersCover (provs.foldl (scanProvider F) st) by
    refine h ⟨[], []⟩ ?_
    intro u allocs pu hm hp
    simp at hm
  induction provs with
  | nil => exact fun st h => h
  | cons q provs ih =>
      exact fun st h => ih _ (providersCover_scanProvider h)

theorem classifyAllocs_isSome {providers : List (String × ResourceProvider)}
    {host : Option String} {l : List (String × Allocation)}
    (h : ∀ pu a, (pu, a) ∈ l → (dictLookup providers pu).isSome = true) :
    (classifyAllocs providers host l).isSome = true := by
  induction l with
  | nil => rfl
  | cons x l ih =>
      obtain ⟨pu, a⟩ := x
      have h1 := h pu a (List.mem_cons_self ..)
      cases hdl : dictLookup providers pu with
      | none => rw [hdl] at h1; simp at h1
      | some pr =>
          have h2 := ih (fun pu' a' hm => h pu' a' (List.mem_cons_of_mem _ hm))
          cases hca : classifyAllocs providers host l with
          | none => rw [hca] at h2; simp at h2
          | some es => simp [classifyAllocs, hdl, hca]

theorem classify_isSome (providers : List (String × ResourceProvider))
    (limit : List String) (look : String → Option String) :
    ∀ (t : Tally) (m : List (String × ConflictRecord)),
      (∀ u allocs pu a, (u, allocs) ∈ t → (pu, a) ∈ allocs →
        (dictLookup providers pu).isSome = true) →
      (classify providers limit look t m).isSome = true := by
  intro t
  induction t with
  | nil => exact fun m _ => rfl
  | cons x rest ih =>
      obtain ⟨iu, allocs⟩ := x
      intro m h
      have hrest : ∀ u al pu a, (u, al) ∈ rest → (pu, a) ∈ al →
          (dictLookup providers pu).isSome = true :=
        fun u al pu a hm hp => h u al pu a (List.mem_cons_of_mem _ hm) hp
      unfold classify
      by_cases h1 : limit ≠ [] ∧ iu ∉ limit
      · rw [if_pos h1]
        exact ih m hrest
      · rw [if_neg h1]
        by_cases h2 : allocs.length > 1
        · rw [if_pos h2]
          have hca : (classifyAllocs providers (look iu) allocs).isSome = true :=
            classifyAllocs_isSome
              (fun pu a hm => h iu allocs pu a (List.mem_cons_self ..) hm)
          cases hcc : classifyAllocs providers (look iu) allocs with
          | none => rw [hcc] at hca; simp at hca
          | some es => exact ih _ hrest
        · rw [if_neg h2]
          exact ih m hrest

/-- C10: every provider uuid appearing as an inner key of any instance's
tally entry was inserted into the `providers` dict when that provider was
scanned, so the classifier's `providers[provider_uuid]` lookup always
succeeds, and the whole audit never hits an unknown provider uuid
(`classify` returns `some`). -/
theorem c10_provider_lookup_total (provs : List ResourceProvider)
    (F : String → List (String × Allocation)) (limit : List String)
    (look : String → Option String) :
    (∀ u allocs pu a, (u, allocs) ∈ (buildTally provs F).tally →
      (pu, a) ∈ allocs →
      (dictLookup (buildTally provs F).providers pu).isSome = true) ∧
    (auditRun provs F limit look).isSome = true := by
  have hcov : ∀ u allocs pu a, (u, allocs) ∈ (buildTally provs F).tally →
      (pu, a) ∈ allocs →
      (dictLookup (buildTally provs F).providers pu).isSome = true := by
    intro u allocs pu a hm hp
    exact dictLookup_isSome_iff.mpr
      (providersCover_buildTally provs F u allocs pu hm
        (List.mem_map_of_mem Prod.fst hp))
  refine ⟨hcov, ?_⟩
  unfold auditRun
  exact classify_isSome _ _ _ _ _ hcov

/-- Witness for C10 at the concrete scenario: the provider lookup for `p1`
succeeds and the audit returns a result. -/
theorem c10_provider_lookup_total_witness :
    (dictLookup (buildTally [provA, provB] scenarioF).providers "p1").isSome
        = true ∧
    (auditRun [provA, provB] scenarioF [] scenarioLook).isSome = true := by
  refine ⟨?_, (c10_provider_lookup_total [provA, provB] scenarioF []
    scenarioLook).2⟩
  exact (c10_provider_lookup_total [provA, provB] scenarioF [] scenarioLook).1
    "i1" [("p1", alloc1), ("p2", alloc2)] "p1" alloc1 (by decide) (by decide)

/-! ### Classifier structure -/

theorem classifyAllocs_flags {providers : List (String × ResourceProvider)}
    {host : Option String} {l : List (String × Allocation)}
    {es : List ConflictEntry} (h : classifyAllocs providers host l = some es) :
    ∀ e ∈ es, e.active = decide (host = some e.provider.name) := by
  induction l generalizing es with
  | nil =>
      simp only [classifyAllocs, Option.some.injEq] at h
      subst h
      intro e he
      simp at he
  | cons x l ih =>
      obtain ⟨pu, a⟩ := x
      unfold classifyAllocs at h
      cases hdl : dictLookup providers pu with
      | none => rw [hdl] at h; simp at h
      | some pr =>
          rw [hdl] at h
          cases hca : classifyAllocs providers host l with
          | none => rw [hca] at h; simp at h
          | some es' =>
              rw [hca] at h
              simp only [Option.some.injEq] at h
              subst h
              intro e he
              rcases List.mem_cons.mp he with he' | he'
              · subst he'
                rfl
              · exact ih hca e he'

theorem classify_mem {providers : List (String × ResourceProvider)}
    {limit : List String} {look : String → Option String} :
    ∀ {t : Tally} {m₀ m : List (String × ConflictRecord)},
      classify providers limit look t m₀ = some m →
      ∀ u cr, (u, cr) ∈ m → (u, cr) ∈ m₀ ∨
        ∃ allocs es, (u, allocs) ∈ t ∧ allocs.length > 1 ∧
          ¬(limit ≠ [] ∧ u ∉ limit) ∧
          classifyAllocs providers (look u) allocs = some es ∧
          cr = ⟨u, look u, es⟩ := by
  intro t
  induction t with
  | nil =>
      intro m₀ m h u cr hm
      have hm₀ := Option.some.inj h
      subst hm₀
      exact Or.inl hm
  | cons y rest ih =>
      obtain ⟨iu, allocs⟩ := y
      intro m₀ m h u cr hm
      unfold classify at h
      by_cases h1 : limit ≠ [] ∧ iu ∉ limit
      · rw [if_pos h1] at h
        rcases ih h u cr hm with h' | ⟨al, es, hmem, hrest⟩
        · exact Or.inl h'
        · exact Or.inr ⟨al, es, List.mem_cons_of_mem _ hmem, hrest⟩
      · rw [if_neg h1] at h
        by_cases h2 : allocs.length > 1
        · rw [if_pos h2] at h
          cases hca : classifyAllocs providers (look iu) allocs with
          | none => rw [hca] at h; exact absurd h (by simp)
          | some es =>
              rw [hca] at h
              rcases ih h u cr hm with h' | ⟨al, es', hmem, hrest⟩
              · rcases mem_dictInsert h' with h'' | h''
                · exact Or.inl h''
                · simp only [Prod.mk.injEq] at h''
                  obtain ⟨hu, hr⟩ := h''
                  subst hu
                  exact Or.inr ⟨allocs, es, List.mem_cons_self .., h2, h1, hca, hr⟩
              · exact Or.inr ⟨al, es', List.mem_cons_of_mem _ hmem, hrest⟩
        · rw [if_neg h2] at h
          rcases ih h u cr hm with h' | ⟨al, es, hmem, hrest⟩
          · exact Or.inl h'
          · exact Or.inr ⟨al, es, List.mem_cons_of_mem _ hmem, hrest⟩

theorem classify_keys_nodup {providers : List (String × ResourceProvider)}
    {limit : List String} {look : String → Option String} :
    ∀ {t : Tally} {m₀ m : List (String × ConflictRecord)}, (keys m₀).Nodup →
      classify providers limit look t m₀ = some m → (keys m).Nodup := by
  intro t
  induction t with
  | nil =>
      intro m₀ m hnd h
      have hm₀ := Option.some.inj h
      subst hm₀
      exact hnd
  | cons y rest ih =>
      obtain ⟨iu, allocs⟩ := y
      intro m₀ m hnd h
      unfold classify at h
      by_cases h1 : limit ≠ [] ∧ iu ∉ limit
      · rw [if_pos h1] at h
        exact ih hnd h
      · rw [if_neg h1] at h
        by_cases h2 : allocs.length > 1
        · rw [if_pos h2] at h
          cases hca : classifyAllocs providers (look iu) allocs with
          | none => rw [hca] at h; exact absurd h (by simp)
          | some es =>
              rw [hca] at h
              exact ih (keys_nodup_dictInsert hnd) h
        · rw [if_neg h2] at h
          exact ih hnd h

theorem classify_skip {providers : List (String × ResourceProvider)}
    {limit : List String} {look : String → Option String} :
    ∀ {t : Tally} {m₀ m : List (String × ConflictRecord)} {u : String},
      classify providers limit look t m₀ = some m → u ∉ keys m₀ →
      (∀ allocs, (u, allocs) ∈ t →
        (limit ≠ [] ∧ u ∉ limit) ∨ allocs.length ≤ 1) →
      u ∉ keys m := by
  intro t
  induction t with
  | nil =>
      intro m₀ m u h hm₀ _
      have hm := Option.some.inj h
      subst hm
      exact hm₀
  | cons y rest ih =>
      obtain ⟨iu, allocs⟩ := y
      intro m₀ m u h hm₀ hcond
      unfold classify at h
      by_cases h1 : limit ≠ [] ∧ iu ∉ limit
      · rw [if_pos h1] at h
        exact ih h hm₀ (fun al hal => hcond al (List.mem_cons_of_mem _ hal))
      · rw [if_neg h1] at h
        by_cases h2 : allocs.length > 1
        · rw [if_pos h2] at h
          cases hca : classifyAllocs providers (look iu) allocs with
          | none => rw [hca] at h; exact absurd h (by simp)
          | some es =>
              rw [hca] at h
              have hne : iu ≠ u := by
                intro he
                subst he
                rcases hcond allocs (List.mem_cons_self ..) with hc | hc
                · exact h1 hc
                · omega
              refine ih h ?_ (fun al hal => hcond al (List.mem_cons_of_mem _ hal))
              intro hku
              rcases mem_keys_dictInsert.mp hku with h' | h'
              · exact hm₀ h'
              · exact hne h'.symm
        · rw [if_neg h2] at h
          exact ih h hm₀ (fun al hal => hcond al (List.mem_cons_of_mem _ hal))

theorem foldl_alloc_keys_nodup {pu0 : String} {l : List (String × Allocation)}
    {t : Tally} (h : (keys t).Nodup) :
    (keys (l.foldl (fun t ia => tallyAdd t ia.1 pu0 ia.2) t)).Nodup := by
  induction l generalizing t with
  | nil => exact h
  | cons x l ih => exact ih (keys_nodup_dictInsert h)

theorem buildTally_keys_nodup (provs : List ResourceProvider)
    (F : String → List (String × Allocation)) :
    (keys (buildTally provs F).tally).Nodup := by
  unfold buildTally
  suffices h : ∀ st : ScanState, (keys st.tally).Nodup →
      (keys (provs.foldl (scanProvider F) st).tally).Nodup from
    h ⟨[], []⟩ (by simp [keys])
  induction provs with
  | nil => exact fun st h => h
  | cons q provs ih => exact fun st h => ih _ (foldl_alloc_keys_nodup h)

/-! ### Repair loop structure -/

theorem runRepair_cons_inactive
    {put : String → PutBody → Except UpstreamError Unit} {u : String}
    {cr : ConflictRecord} {rest : List (String × ConflictRecord)}
    (hf : cr.allocations.find? (fun x => x.active) = none) :
    runRepair put ((u, cr) :: rest) = runRepair put rest := by
  conv_lhs => unfold runRepair
  rw [hf]

theorem runRepair_cons_ok
    {put : String → PutBody → Except UpstreamError Unit} {u : String}
    {cr : ConflictRecord} {rest : List (String × ConflictRecord)}
    {e : ConflictEntry}
    (hf : cr.allocations.find? (fun x => x.active) = some e)
    (hput : put u (set_allocation_body e) = Except.ok ()) :
    runRepair put ((u, cr) :: rest) =
      ((u, set_allocation_body e) :: (runRepair put rest).1,
        (runRepair put rest).2) := by
  conv_lhs => unfold runRepair
  rw [hf]
  dsimp only
  unfold set_allocation
  rw [hput]

theorem runRepair_cons_error
    {put : String → PutBody → Except UpstreamError Unit} {u : String}
    {cr : ConflictRecord} {rest : List (String × ConflictRecord)}
    {e : ConflictEntry} {er : UpstreamError}
    (hf : cr.allocations.find? (fun x => x.active) = some e)
    (hput : put u (set_allocation_body e) = Except.error er) :
    runRepair put ((u, cr) :: rest) = ([(u, set_allocation_body e)], some er) := by
  conv_lhs => unfold runRepair
  rw [hf]
  dsimp only
  unfold set_allocation
  rw [hput]

theorem runRepair_calls_mem
    {put : String → PutBody → Except UpstreamError Unit} :
    ∀ {m : List (String × ConflictRecord)} {u : String} {body : PutBody},
      (u, body) ∈ (runRepair put m).1 →
      ∃ cr e, (u, cr) ∈ m ∧
        cr.allocations.find? (fun x => x.active) = some e ∧
        body = set_allocation_body e := by
  intro m
  induction m with
  | nil =>
      intro u body h
      simp [runRepair] at h
  | cons y rest ih =>
      obtain ⟨u', cr'⟩ := y
      intro u body h
      cases hf : cr'.allocations.find? (fun x => x.active) with
      | none =>
          rw [runRepair_cons_inactive hf] at h
          obtain ⟨cr, e, hm, he, hb⟩ := ih h
          exact ⟨cr, e, List.mem_cons_of_mem _ hm, he, hb⟩
      | some e =>
          cases hput : put u' (set_allocation_body e) with
          | ok v =>
              cases v
              rw [runRepair_cons_ok hf hput] at h
              rcases List.mem_cons.mp h with h' | h'
              · simp only [Prod.mk.injEq] at h'
                obtain ⟨hu, hb⟩ := h'
                subst hu
                exact ⟨cr', e, List.mem_cons_self .., hf, hb⟩
              · obtain ⟨cr, e', hm, he, hb⟩ := ih h'
                exact ⟨cr, e', List.mem_cons_of_mem _ hm, he, hb⟩
          | error er =>
              rw [runRepair_cons_error hf hput] at h
              simp only [List.mem_singleton, Prod.mk.injEq] at h
              obtain ⟨hu, hb⟩ := h
              subst hu
              exact ⟨cr', e, List.mem_cons_self .., hf, hb⟩

theorem runRepair_calls_count
    {put : String → PutBody → Except UpstreamError Unit} :
    ∀ {m : List (String × ConflictRecord)}, (keys m).Nodup →
      ∀ u, ((runRepair put m).1.countP (fun c => c.1 == u)) ≤ 1 := by
  intro m
  induction m with
  | nil =>
      intro _ u
      simp [runRepair]
  | cons y rest ih =>
      obtain ⟨u', cr'⟩ := y
      intro hnd u
      rw [keys_cons] at hnd
      have hnotin : u' ∉ keys rest := (List.nodup_cons.mp hnd).1
      have hnd' : (keys rest).Nodup := (List.nodup_cons.mp hnd).2
      cases hf : cr'.allocations.find? (fun x => x.active) with
      | none =>
          rw [runRepair_cons_inactive hf]
          exact ih hnd' u
      | some e =>
          cases hput : put u' (set_allocation_body e) with
          | ok v =>
              cases v
              rw [runRepair_cons_ok hf hput]
              rw [List.countP_cons]
              by_cases hu : u' = u
              · subst hu
                have hzero :
                    (runRepair put rest).1.countP (fun c => c.1 == u') = 0 := by
                  rw [List.countP_eq_zero]
                  intro c hc hbeq
                  have hc1 : c.1 = u' := beq_iff_eq.mp hbeq
                  have hc' : (u', c.2) ∈ (runRepair put rest).1 := by
                    rw [← hc1]
                    exact hc
                  obtain ⟨cr, e', hm, _, _⟩ := runRepair_calls_mem hc'
                  exact hnotin (List.mem_map_of_mem Prod.fst hm)
                rw [hzero]
                simp
              · have hle := ih hnd' u
                simp only [beq_iff_eq, hu, if_false]
                simpa [beq_iff_eq] using hle
          | error er =>
              rw [runRepair_cons_error hf hput]
              rw [List.countP_cons]
              simp only [List.countP_nil]
              split <;> omega

/-! ### Claim theorems -/

/-- C2: in every run the repair loop issues at most one `replaceAllocation`
PUT per instance uuid, and any call issued for an instance carries the body
built from the first entry flagged active in that instance's recorded entry
order (the loop `break`s there, processing no further entries). -/
theorem c2_repair_at_most_one_first_active (provs : List ResourceProvider)
    (F : String → List (String × Allocation)) (limit : List String)
    (look : String → Option String)
    (put : String → PutBody → Except UpstreamError Unit)
    (m : List (String × ConflictRecord)) (u : String)
    (h : auditRun provs F limit look = some m) :
    ((runRepair put m).1.countP (fun c => c.1 == u)) ≤ 1 ∧
    ∀ body, (u, body) ∈ (runRepair put m).1 →
      ∃ cr e, (u, cr) ∈ m ∧
        cr.allocations.find? (fun x => x.active) = some e ∧
        body = set_allocation_body e := by
  have h' : classify (buildTally provs F).providers limit look
      (buildTally provs F).tally [] = some m := h
  have hnd : (keys m).Nodup := classify_keys_nodup (by simp [keys]) h'
  exact ⟨runRepair_calls_count hnd u, fun body hb => runRepair_calls_mem hb⟩

/-- Witness for C2 at the concrete single-conflict scenario. -/
theorem c2_repair_at_most_one_first_active_witness :
    ((runRepair (fun _ _ => Except.ok ()) [("i1", scenarioRecord)]).1.countP
      (fun c => c.1 == "i1")) ≤ 1 :=
  (c2_repair_at_most_one_first_active [provA, provB] scenarioF [] scenarioLook
    (fun _ _ => Except.ok ()) [("i1", scenarioRecord)] "i1" rfl).1

/-- C5: in every conflict record of a run, an entry is flagged active exactly
when its provider's name is string-equal (exact, case-sensitive, no
normalisation) to the compute-reported active host stored in the record;
hence the active entries never outnumber the entries whose provider name
matches the host, and when the lookup returned absent no entry is active. -/
theorem c5_active_iff_name_matches (provs : List ResourceProvider)
    (F : String → List (String × Allocation)) (limit : List String)
    (look : String → Option String) (m : List (String × ConflictRecord))
    (u : String) (cr : ConflictRecord)
    (h : auditRun provs F limit look = some m) (hm : (u, cr) ∈ m) :
    (∀ e ∈ cr.allocations,
      e.active = decide (cr.active = some e.provider.name)) ∧
    cr.allocations.countP (fun e => e.active) ≤
      cr.allocations.countP
        (fun e => decide (cr.active = some e.provider.name)) ∧
    (cr.active = none → cr.allocations.countP (fun e => e.active) = 0) := by
  have h' : classify (buildTally provs F).providers limit look
      (buildTally provs F).tally [] = some m := h
  rcases classify_mem h' u cr hm with h0 | ⟨allocs, es, _, _, _, hca, hr⟩
  · simp at h0
  · subst hr
    have hflags := classifyAllocs_flags hca
    refine ⟨hflags, ?_, ?_⟩
    · exact le_of_eq (List.countP_congr (fun e he => by rw [hflags e he]))
    · intro hnone
      have hn : look u = none := hnone
      rw [List.countP_eq_zero]
      intro e he
      rw [hflags e he, hn]
      simp

/-- Witness for C5 at the concrete single-conflict scenario. -/
theorem c5_active_iff_name_matches_witness :
    scenarioRecord.allocations.countP (fun e => e.active) ≤
      scenarioRecord.allocations.countP
        (fun e => decide (scenarioRecord.active = some e.provider.name)) :=
  (c5_active_iff_name_matches [provA, provB] scenarioF [] scenarioLook
    [("i1", scenarioRecord)] "i1" scenarioRecord rfl (by decide)).2.1

/-- C6: a conflicting instance none of whose entries is flagged active is
not repaired (no PUT is issued for it in the repair loop) but is still
surfaced to the operator: its uuid line appears in the console report
rather than the instance being silently dropped. -/
theorem c6_no_active_skipped_but_reported (provs : List ResourceProvider)
    (F : String → List (String × Allocation)) (limit : List String)
    (look : String → Option String)
    (put : String → PutBody → Except UpstreamError Unit)
    (m : List (String × ConflictRecord)) (u : String) (cr : ConflictRecord)
    (h : auditRun provs F limit look = some m) (hm : (u, cr) ∈ m)
    (hin : ∀ e ∈ cr.allocations, e.active = false) :
    (∀ body, (u, body) ∉ (runRepair put m).1) ∧ u ∈ reportLines m := by
  have h' : classify (buildTally provs F).providers limit look
      (buildTally provs F).tally [] = some m := h
  have hnd : (keys m).Nodup := classify_keys_nodup (by simp [keys]) h'
  constructor
  · intro body hb
    obtain ⟨cr', e, hm', hf, _⟩ := runRepair_calls_mem hb
    have hcr : cr' = cr := keys_nodup_unique hnd hm' hm
    subst hcr
    have hp : e.active = true := List.find?_some hf
    have hmem := List.mem_of_find?_eq_some hf
    rw [hin e hmem] at hp
    exact absurd hp (by simp)
  · exact List.mem_flatMap.mpr ⟨(u, cr), hm, List.mem_cons_self ..⟩

/-- Witness for C6: with the compute lookup absent, `i1` is reported. -/
theorem c6_no_active_skipped_but_reported_witness :
    "i1" ∈ reportLines [("i1", unresolvedRecord)] :=
  (c6_no_active_skipped_but_reported [provA, provB] scenarioF [] lookAbsent
    (fun _ _ => Except.ok ()) [("i1", unresolvedRecord)] "i1" unresolvedRecord
    rfl (by decide) (by decide)).2

/-- C7: an instance with one or zero allocations in the tally yields no
conflict record (hence no report lines for it) and the repair loop issues
no PUT for it; in particular an already-repaired instance whose fresh tally
shows a single allocation is not written again. -/
theorem c7_single_allocation_dropped (provs : List ResourceProvider)
    (F : String → List (String × Allocation)) (limit : List String)
    (look : String → Option String)
    (put : String → PutBody → Except UpstreamError Unit)
    (u : String) (m : List (String × ConflictRecord))
    (hlen : ((dictLookup (buildTally provs F).tally u).getD []).length ≤ 1)
    (h : auditRun provs F limit look = some m) :
    u ∉ keys m ∧ ∀ body, (u, body) ∉ (runRepair put m).1 := by
  have h' : classify (buildTally provs F).providers limit look
      (buildTally provs F).tally [] = some m := h
  have hnd := buildTally_keys_nodup provs F
  have hskip : u ∉ keys m := by
    refine classify_skip h' (by simp [keys]) ?_
    intro allocs hmem
    right
    have hl := mem_dictLookup hnd hmem
    rw [hl] at hlen
    simpa using hlen
  refine ⟨hskip, ?_⟩
  intro body hb
  obtain ⟨cr, e, hm, _, _⟩ := runRepair_calls_mem hb
  exact hskip (List.mem_map_of_mem Prod.fst hm)

/-- Witness for C7: instance `i2` holds a single allocation, so no conflict
record is produced for it. -/
theorem c7_single_allocation_dropped_witness :
    "i2" ∉ keys ([] : List (String × ConflictRecord)) :=
  (c7_single_allocation_dropped [provA] singleF [] scenarioLook
    (fun _ _ => Except.ok ()) "i2" [] (by decide) rfl).1

/-- C9: when the `--limit` allow-list is non-empty and an instance uuid is
not listed, the run produces no conflict record for it and the repair loop
issues no `replaceAllocation` PUT for it. -/
theorem c9_limit_skips_unlisted (provs : List ResourceProvider)
    (F : String → List (String × Allocation)) (limit : List String)
    (look : String → Option String)
    (put : String → PutBody → Except UpstreamError Unit)
    (u : String) (m : List (String × ConflictRecord))
    (h1 : limit ≠ []) (h2 : u ∉ limit)
    (h : auditRun provs F limit look = some m) :
    u ∉ keys m ∧ ∀ body, (u, body) ∉ (runRepair put m).1 := by
  have h' : classify (buildTally provs F).providers limit look
      (buildTally provs F).tally [] = some m := h
  have hskip : u ∉ keys m :=
    classify_skip h' (by simp [keys]) (fun allocs _ => Or.inl ⟨h1, h2⟩)
  refine ⟨hskip, ?_⟩
  intro body hb
  obtain ⟨cr, e, hm, _, _⟩ := runRepair_calls_mem hb
  exact hskip (List.mem_map_of_mem Prod.fst hm)

/-- Witness for C9: with `--limit i9`, instance `i1` is not audited. -/
theorem c9_limit_skips_unlisted_witness :
    "i1" ∉ keys ([] : List (String × ConflictRecord)) :=
  (c9_limit_skips_unlisted [provA, provB] scenarioF ["i9"] scenarioLook
    (fun _ _ => Except.ok ()) "i1" [] (by decide) (by decide) rfl).1

/-- C3 (amended): when the `replaceAllocation` write for one instance fails
with an `UpstreamError`, the exception propagates uncaught out of the repair
loop and aborts the pass: the failing call is the last PUT issued and no
write is attempted for any remaining conflicting instance. -/
theorem c3_write_failure_aborts_repair
    (put : String → PutBody → Except UpstreamError Unit)
    (pre post : List (String × ConflictRecord)) (u : String)
    (cr : ConflictRecord) (e : ConflictEntry) (er : UpstreamError)
    (hpre : (runRepair put pre).2 = none)
    (hf : cr.allocations.find? (fun x => x.active) = some e)
    (hput : put u (set_allocation_body e) = Except.error er) :
    runRepair put (pre ++ (u, cr) :: post) =
      ((runRepair put pre).1 ++ [(u, set_allocation_body e)], some er) := by
  induction pre with
  | nil =>
      rw [List.nil_append, runRepair_cons_error hf hput]
      simp [runRepair]
  | cons y rest ih =>
      obtain ⟨u', cr'⟩ := y
      cases hf' : cr'.allocations.find? (fun x => x.active) with
      | none =>
          rw [runRepair_cons_inactive hf'] at hpre
          rw [List.cons_append, runRepair_cons_inactive hf',
            runRepair_cons_inactive hf']
          exact ih hpre
      | some e' =>
          cases hput' : put u' (set_allocation_body e') with
          | ok v =>
              cases v
              rw [runRepair_cons_ok hf' hput'] at hpre
              have hpre' : (runRepair put rest).2 = none := hpre
              rw [List.cons_append, runRepair_cons_ok hf' hput',
                runRepair_cons_ok hf' hput', ih hpre']
              simp
          | error er' =>
              rw [runRepair_cons_error hf' hput'] at hpre
              simp at hpre

/-- Witness for C3 (amended) at the two-instance scenario: the `i1` failure
leaves `i2` unwritten. -/
theorem c3_write_failure_aborts_repair_witness :
    runRepair failPut
        [("i0", preRecord), ("i1", scenarioRecord), ("i2", scenario2RecI2)] =
      ((runRepair failPut [("i0", preRecord)]).1 ++
        [("i1", set_allocation_body ⟨provA, true, alloc1⟩)],
        some ⟨"HTTP 500"⟩) :=
  c3_write_failure_aborts_repair failPut [("i0", preRecord)]
    [("i2", scenario2RecI2)] "i1" scenarioRecord ⟨provA, true, alloc1⟩
    ⟨"HTTP 500"⟩ rfl rfl rfl

/-- C3 counterexample: both `i1` and `i2` conflict and each has an active
entry; the PUT for `i1` fails, and the run aborts with that error: the only
call issued is the failing `i1` call and the write for the remaining
conflicting instance `i2` is never attempted — refuting the claim that the
run continues with the remaining instances. -/
theorem c3_write_failure_counterexample :
    auditRun [provA, provB] scenario2F [] scenario2Look = some scenario2M ∧
    runRepair failPut scenario2M =
      ([("i1", set_allocation_body ⟨provA, true, alloc1⟩)],
        some ⟨"HTTP 500"⟩) ∧
    (runRepair failPut scenario2M).1.countP (fun c => c.1 == "i2") = 0 :=
  ⟨rfl, rfl, rfl⟩

/-- C4: the read-phase gateway calls surface upstream failures: on a non-2xx
response, `list_resource_providers` and `get_resource_provider_allocations`
yield an `UpstreamError` instead of decoding data out of the error
response. -/
theorem c4_read_phase_upstream_error (status : Nat)
    (b : Option (List ResourceProvider)) (d : AllocationsDoc)
    (h : ¬(200 ≤ status ∧ status ≤ 299)) :
    isError (list_resource_providers ⟨status, b⟩) = true ∧
    isError (get_resource_provider_allocations ⟨status, d⟩) = true := by
  constructor
  · simp only [list_resource_providers, sessionGet]
    rw [if_neg h]
    rfl
  · simp only [get_resource_provider_allocations, sessionGet]
    rw [if_neg h]
    rfl

/-- Witness for C4 at a concrete 503 response. -/
theorem c4_read_phase_upstream_error_witness :
    isError (list_resource_providers ⟨503, some [provA]⟩) = true ∧
    isError (get_resource_provider_allocations
      ⟨503, ⟨[("i1", alloc1)]⟩⟩) = true :=
  c4_read_phase_upstream_error 503 (some [provA]) ⟨[("i1", alloc1)]⟩
    (by decide)

end CheckPlacement
